import Mathlib

/-!
Shallow embedding of the hw_08 contact-book program (source files
`src/1.py` and `src/main.py`) and verification of its specification claims.

Conventions of the embedding:
* Python strings are Lean `String`s; character-level parsing works on
  `String.data` (the list of characters).  `str.isdigit` is modelled on the
  ASCII fragment as `Char.isDigit`.
* Python `datetime.date` values are `Date` triples (day, month, year); the
  proleptic Gregorian calendar is modelled by `isLeap`, `daysInMonth`,
  `validDate`, and day counting by `rataDie` (days since 0000-12-31, so
  0001-01-01 has number 1).  Python's `date.weekday()` (Monday = 0) is
  `weekday`; adding a `timedelta` of n days is `addDays`.
* `datetime.strptime(s, "%d.%m.%Y")` is modelled by `parseDMY`, faithful to
  CPython's `_strptime` regular expressions: day matches
  `3[01]|[12]\d|0[1-9]|[1-9]` (one or two digits), month matches
  `1[0-2]|0[1-9]|[1-9]`, year matches exactly four digits, the separators are
  literal dots and the whole string must be consumed; the subsequent
  `datetime(...)` construction additionally requires a real calendar date with
  year at least 1.  Value-range checks of the regex are subsumed by
  `validDate`.
* Raising `ValueError` is modelled by `Except.error` carrying the message.
  Methods that mutate an object are state-passing functions returning the
  post-state paired with an `Except String Unit`; the post-state on error is
  the state at the moment the Python exception is raised.
* A Python `dict` (insertion ordered, unique keys) is an association list
  `List (String × Record)`; `dict[k] = v` is `setKey` (replace in place or
  append), `del dict[k]` is `removeKey`, `dict.get(k, None)` is `findRec`.
* The variant in `src/1.py` lives in namespace `SrcOne`, the variant in
  `src/main.py` in namespace `SrcMain`.  Both store a record's phones as the
  list of raw strings held by the `Phone` field objects, and the birthday as
  the parsed date (the Python code stores the validated string and re-parses
  it with the same format on use, which yields the same date).
-/

namespace Hw

/-- Phone validation rule shared by both files: `len(value) == 10 and
value.isdigit()` in `src/1.py`, `phone.isdigit() and len(phone) == 10` in
`src/main.py`. -/
def phoneValid (s : String) : Bool :=
  s.length == 10 && s.data.all Char.isDigit

/-- Gregorian leap-year test, as used by Python's `datetime`. -/
def isLeap (y : Nat) : Bool :=
  y % 4 == 0 && (y % 100 != 0 || y % 400 == 0)

/-- Number of days in a month of a given year (months are 1-based). -/
def daysInMonth (y m : Nat) : Nat :=
  if m = 1 then 31
  else if m = 2 then (if isLeap y then 29 else 28)
  else if m = 3 then 31
  else if m = 4 then 30
  else if m = 5 then 31
  else if m = 6 then 30
  else if m = 7 then 31
  else if m = 8 then 31
  else if m = 9 then 30
  else if m = 10 then 31
  else if m = 11 then 30
  else if m = 12 then 31
  else 0

/-- A calendar date; mirrors Python's `datetime.date`. -/
structure Date where
  day : Nat
  month : Nat
  year : Nat
deriving DecidableEq, Repr

/-- Validity condition enforced by Python's `datetime` constructor:
`MINYEAR = 1`, `MAXYEAR = 9999`, month in 1..12, day in 1..days-in-month. -/
def validDate (y m d : Nat) : Bool :=
  1 ≤ y && y ≤ 9999 && 1 ≤ m && m ≤ 12 && 1 ≤ d && d ≤ daysInMonth y m

/-- Days in all years strictly before year `y` (proleptic Gregorian). -/
def daysBeforeYear (y : Nat) : Nat :=
  365 * (y - 1) + (y - 1) / 4 + (y - 1) / 400 - (y - 1) / 100

/-- Days in the months of year `y` strictly before month `m`. -/
def daysBeforeMonth (y m : Nat) : Nat :=
  ((List.range (m - 1)).map (fun i => daysInMonth y (i + 1))).sum

/-- Day number of a date: 0001-01-01 is day 1.  Differences of `rataDie`
values are exactly the `.days` of Python `date` subtraction. -/
def rataDie (d : Date) : Nat :=
  daysBeforeYear d.year + daysBeforeMonth d.year d.month + d.day

/-- Python's `date.weekday()`: Monday is 0, Sunday is 6. -/
def weekday (d : Date) : Nat :=
  (rataDie d + 6) % 7

/-- Successor day in the calendar (rolls over months and years). -/
def nextDay (d : Date) : Date :=
  if d.day < daysInMonth d.year d.month then ⟨d.day + 1, d.month, d.year⟩
  else if d.month < 12 then ⟨1, d.month + 1, d.year⟩
  else ⟨1, 1, d.year + 1⟩

/-- Adding a `timedelta` of `n` days to a date. -/
def addDays (d : Date) (n : Nat) : Date :=
  nextDay^[n] d

/-- Chronological strict order on dates, as Python compares `date` values
(lexicographic on year, month, day). -/
def dateLt (a b : Date) : Bool :=
  if a.year ≠ b.year then decide (a.year < b.year)
  else if a.month ≠ b.month then decide (a.month < b.month)
  else decide (a.day < b.day)

/-- Prepend a character to the first segment of a split. -/
def consHead (c : Char) : List (List Char) → List (List Char)
  | [] => [[c]]
  | h :: r => (c :: h) :: r

/-- Split a character list at every dot, keeping (possibly empty) segments;
models how the strptime format `"%d.%m.%Y"` anchors its numeric fields at the
literal dots. -/
def splitDots : List Char → List (List Char)
  | [] => [[]]
  | c :: t =>
    if c = '.' then [] :: splitDots t
    else consHead c (splitDots t)

/-- Numeric value of a digit character. -/
def digitVal (c : Char) : Nat :=
  c.toNat - 48

/-- Decimal value of a digit string. -/
def decodeDigits (l : List Char) : Nat :=
  l.foldl (fun a c => 10 * a + digitVal c) 0

/-- Shape of the strptime `%d` and `%m` fields: one or two digit characters
(value-range checks are subsumed by `validDate` below). -/
def tok12 (l : List Char) : Bool :=
  l.all Char.isDigit && decide (1 ≤ l.length) && decide (l.length ≤ 2)

/-- Shape of the strptime `%Y` field: exactly four digit characters. -/
def tokY (l : List Char) : Bool :=
  l.all Char.isDigit && decide (l.length = 4)

/-- Numeric validation and `datetime` construction once the three fields of
the `"%d.%m.%Y"` pattern have been isolated. -/
def parseFields (ds ms ys : List Char) : Option Date :=
  if tok12 ds && tok12 ms && tokY ys then
    if validDate (decodeDigits ys) (decodeDigits ms) (decodeDigits ds) then
      some ⟨decodeDigits ds, decodeDigits ms, decodeDigits ys⟩
    else none
  else none

/-- Dispatch on the shape of the dot-split: the format has exactly two
literal dots, so any other number of segments fails to match. -/
def parseSegs : List (List Char) → Option Date
  | [ds, ms, ys] => parseFields ds ms ys
  | _ => none

/-- Model of `datetime.strptime(s, "%d.%m.%Y")` followed by construction of
the `datetime` value, returning the parsed date or `none` on `ValueError`.
The day and month fields are one or two digits (CPython's `_strptime`
regular expressions `3[01]|[12]\d|0[1-9]|[1-9]` and `1[0-2]|0[1-9]|[1-9]`),
the year exactly four digits; the separators are literal dots, the whole
string must be consumed, and the result must be a real calendar date with
year at least 1. -/
def parseDMY (l : List Char) : Option Date :=
  parseSegs (splitDots l)

/-- Birthday validation shared by both files: `strptime(value, "%d.%m.%Y")`
must succeed. -/
def birthdayParse (s : String) : Option Date :=
  parseDMY s.data

/-- A contact record: one name, an ordered list of phone strings, an optional
birthday.  Shared shape of `Record` in both source files. -/
structure Record where
  name : String
  phones : List String
  birthday : Option Date
deriving DecidableEq, Repr

/-- An address book: Python's insertion-ordered `dict` from name to record as
an association list with unique keys. -/
abbrev Book := List (String × Record)

/-- Lookup in the book: `self.data.get(name, None)`. -/
def findRec : Book → String → Option Record
  | [], _ => none
  | (k, v) :: t, n => if k = n then some v else findRec t n

/-- Dictionary assignment `self.data[key] = record`: replaces the value in
place when the key is present, appends otherwise. -/
def setKey : Book → String → Record → Book
  | [], n, v => [(n, v)]
  | (k, w) :: t, n, v => if k = n then (k, v) :: t else (k, w) :: setKey t n v

/-- Dictionary deletion `del self.data[key]`: removes the (unique) entry with
the given key. -/
def removeKey : Book → String → Book
  | [], _ => []
  | (k, w) :: t, n => if k = n then t else (k, w) :: removeKey t n

/-- The keys of a book, in order. -/
def keys (b : Book) : List String :=
  b.map Prod.fst

/-- First index of a value in a list of strings, scanning left to right;
models the `for phone in self.phones` search loops. -/
def firstIdx : List String → String → Option Nat
  | [], _ => none
  | p :: t, x => if p = x then some 0 else (firstIdx t x).map (· + 1)

/-- Replace the element at an index (used for `phone.value = ...`). -/
def putAt : List String → Nat → String → List String
  | [], _, _ => []
  | _ :: t, 0, x => x :: t
  | p :: t, n + 1, x => p :: putAt t n x

/-- Remove the element at an index (used for `list.remove` at a found
position). -/
def removeAt : List String → Nat → List String
  | [], _ => []
  | _ :: t, 0 => t
  | p :: t, n + 1 => p :: removeAt t n

namespace SrcOne

/-- Error message of `Phone.__init__` in `src/1.py`. -/
def phoneMsg : String :=
  "Invalid phone number format. Should start from 0 and be 10 digits"

/-- Error message of `Birthday.__init__` in `src/1.py`. -/
def birthdayMsg : String :=
  "Invalid date format. Use DD.MM.YYYY"

/-- Constructor `Phone(value)` of `src/1.py`: validates and stores the raw
string, or raises `ValueError`. -/
def phoneNew (s : String) : Except String String :=
  if phoneValid s then .ok s else .error phoneMsg

/-- Result of the `Birthday` constructor given the outcome of `strptime`:
success keeps the (parsed) value, failure raises with the file's message. -/
def birthdayOf : Option Date → Except String Date
  | some d => .ok d
  | none => .error birthdayMsg

/-- Constructor `Birthday(value)` of `src/1.py`: the stored string must parse
under `"%d.%m.%Y"`; we keep the parsed date. -/
def birthdayNew (s : String) : Except String Date :=
  birthdayOf (birthdayParse s)

/-- `Record.add_phone` of `src/1.py`: `self.phones.append(Phone(phone_number))`.
The `Phone` constructor validates before the append, so the record is
unchanged when it raises. -/
def add_phone (r : Record) (p : String) : Record × Except String Unit :=
  if phoneValid p then ({ r with phones := r.phones ++ [p] }, .ok ())
  else (r, .error phoneMsg)

/-- The `for phone in self.phones: if match: self.phones.remove(phone)` loop
of `Record.remove_phone` in `src/1.py`.  Removing the current element while
iterating shifts the list, so the element directly after a removed one is
never examined: on a match the next element is kept unconditionally and the
scan resumes after it. -/
def removeLoop : List String → String → List String
  | [], _ => []
  | [a], x => if a = x then [] else [a]
  | a :: b :: t, x =>
    if a = x then b :: removeLoop t x else a :: removeLoop (b :: t) x

/-- `Record.remove_phone` of `src/1.py`: the mutating loop above; the method
contains no `raise`, so it always returns normally. -/
def remove_phone (r : Record) (p : String) : Record × Except String Unit :=
  ({ r with phones := removeLoop r.phones p }, .ok ())

/-- The assignment step of `Record.edit_phone` in `src/1.py`, given the
position of the first match (if any): `phone.value = new_phone` directly,
with no validation of the new value. -/
def editAt (r : Record) (n : String) : Option Nat → Record × Except String Unit
  | some i => ({ r with phones := putAt r.phones i n }, .ok ())
  | none => (r, .error "Phone number not found")

/-- `Record.edit_phone` of `src/1.py`: finds the first phone whose value
equals `old_phone` and assigns `phone.value = new_phone` directly, with no
validation of the new value; raises `ValueError` when no phone matches. -/
def edit_phone (r : Record) (o n : String) : Record × Except String Unit :=
  editAt r n (firstIdx r.phones o)

/-- The assignment step of `Record.add_birthday` in `src/1.py`, given the
outcome of the `Birthday` constructor's validation. -/
def setBday (r : Record) : Option Date → Record × Except String Unit
  | some d => ({ r with birthday := some d }, .ok ())
  | none => (r, .error birthdayMsg)

/-- `Record.add_birthday` of `src/1.py`:
`self.birthday = Birthday(new_birthday)`; the constructor validates before
the assignment. -/
def add_birthday (r : Record) (s : String) : Record × Except String Unit :=
  setBday r (birthdayParse s)

/-- `AddressBook.add_record` of `src/1.py`:
`self.data[record.name.value] = record` — silently overwrites. -/
def add_record (b : Book) (r : Record) : Book :=
  setKey b r.name r

/-- `AddressBook.find` of `src/1.py`: `self.data.get(name, None)`. -/
def find (b : Book) (n : String) : Option Record :=
  findRec b n

/-- `AddressBook.delete` of `src/1.py`: `if name in self.data: del
self.data[name]` — no `raise`, so it returns normally in both branches. -/
def delete (b : Book) (n : String) : Book × Except String Unit :=
  if (findRec b n).isSome then (removeKey b n, .ok ()) else (b, .ok ())

end SrcOne

namespace SrcMain

/-- Error message of `Name.__init__` in `src/main.py`. -/
def nameMsg : String :=
  "Ім'я не може бути порожнім"

/-- Error message of `Phone.__init__` in `src/main.py`. -/
def phoneMsg : String :=
  "Номер телефону має містити 10 цифр."

/-- Error message of `Birthday.__init__` in `src/main.py`. -/
def birthdayMsg : String :=
  "Невірний формат дати. Використовуйте DD.MM.YYYY"

/-- Error message of `Record.edit_phone` in `src/main.py`. -/
def editMsg : String :=
  "Старий номер телефону не знайдено."

/-- Error message of `Record.remove_phone` in `src/main.py`. -/
def removeMsg : String :=
  "Телефон не знайдено."

/-- Error message of `AddressBook.add_record` / `delete_record` in
`src/main.py`. -/
def dupMsg : String :=
  "Контакт з таким іменем вже існує."

/-- Error message of `AddressBook.delete_record` in `src/main.py`. -/
def notFoundMsg : String :=
  "Контакт не знайдено."

/-- Constructor `Phone(phone)` of `src/main.py`: `if not phone.isdigit() or
len(phone) != 10: raise`, else store the raw string. -/
def phoneNew (s : String) : Except String String :=
  if phoneValid s then .ok s else .error phoneMsg

/-- Result of the `Birthday` constructor of `src/main.py` given the outcome
of `strptime`. -/
def birthdayOf : Option Date → Except String Date
  | some d => .ok d
  | none => .error birthdayMsg

/-- Constructor `Birthday(value)` of `src/main.py`: `strptime` must succeed;
we keep the parsed date. -/
def birthdayNew (s : String) : Except String Date :=
  birthdayOf (birthdayParse s)

/-- Record construction of `src/main.py` once the name is known to be
non-empty and the birthday string non-empty, given the outcome of the
birthday validation. -/
def recordBday (name : String) : Option Date → Except String Record
  | some d => .ok ⟨name, [], some d⟩
  | none => .error birthdayMsg

/-- Constructor `Record(name, birthday=None)` of `src/main.py`: `Name(name)`
raises on an empty name; `self.birthday = Birthday(birthday) if birthday
else None`, so an empty birthday string means no birthday. -/
def recordNew (name birthday : String) : Except String Record :=
  if name = "" then .error nameMsg
  else if birthday = "" then .ok ⟨name, [], none⟩
  else recordBday name (birthdayParse birthday)

/-- `Record.add_phone` of `src/main.py`: validate, then append. -/
def add_phone (r : Record) (p : String) : Record × Except String Unit :=
  if phoneValid p then ({ r with phones := r.phones ++ [p] }, .ok ())
  else (r, .error phoneMsg)

/-- The removal step of `Record.remove_phone` in `src/main.py`, given the
position of the first match (if any). -/
def removeFound (r : Record) : Option Nat → Record × Except String Unit
  | some i => ({ r with phones := removeAt r.phones i }, .ok ())
  | none => (r, .error removeMsg)

/-- `Record.remove_phone` of `src/main.py`: removes the first phone with the
matching value and returns; raises `ValueError` when none matches. -/
def remove_phone (r : Record) (p : String) : Record × Except String Unit :=
  removeFound r (firstIdx r.phones p)

/-- The assignment step of `Record.edit_phone` in `src/main.py`, given the
position of the first match (if any): `p.value = Phone(new_phone).value`,
where the `Phone` constructor validates before the assignment. -/
def editAt (r : Record) (n : String) : Option Nat → Record × Except String Unit
  | some i =>
    if phoneValid n then ({ r with phones := putAt r.phones i n }, .ok ())
    else (r, .error phoneMsg)
  | none => (r, .error editMsg)

/-- `Record.edit_phone` of `src/main.py`: finds the first phone whose value
equals `old_phone` and assigns `p.value = Phone(new_phone).value`; the
`Phone` constructor validates the new value before the assignment, and the
method raises when no phone matches. -/
def edit_phone (r : Record) (o n : String) : Record × Except String Unit :=
  editAt r n (firstIdx r.phones o)

/-- `AddressBook.add_record` of `src/main.py`: raises on a duplicate name,
otherwise inserts. -/
def add_record (b : Book) (r : Record) : Book × Except String Unit :=
  if (findRec b r.name).isSome then (b, .error dupMsg)
  else (b ++ [(r.name, r)], .ok ())

/-- `AddressBook.delete_record` of `src/main.py`: raises when the name is
absent, otherwise deletes the entry. -/
def delete_record (b : Book) (n : String) : Book × Except String Unit :=
  if (findRec b n).isSome then (removeKey b n, .ok ())
  else (b, .error notFoundMsg)

/-- `AddressBook.search_record` of `src/main.py`. -/
def search_record (b : Book) (n : String) : Option Record :=
  findRec b n

/-- Continuation of the `name` command after `record.add_phone(phone)`: a
raised `ValueError` aborts before `add_record`, otherwise the (possibly
extended) record is added. -/
def nameAddPhone (b : Book) : Record × Except String Unit →
    Book × Except String Unit
  | (_, .error e) => (b, .error e)
  | (r2, .ok _) => add_record b r2

/-- Continuation of the `name` command after `Record(name, birthday)`: a
raised `ValueError` aborts; otherwise the phone is added when one was given
and the record inserted. -/
def nameRecord (b : Book) (phone : String) : Except String Record →
    Book × Except String Unit
  | .error e => (b, .error e)
  | .ok r =>
    if phone = "" then add_record b r
    else nameAddPhone b (add_phone r phone)

/-- The `name` command of `src/main.py`'s interactive loop: build
`Record(name, birthday)`, add the phone if one was given, then
`book.add_record(record)`.  Any `ValueError` leaves the book as it was. -/
def nameCommand (b : Book) (name phone birthday : String) :
    Book × Except String Unit :=
  nameRecord b phone (recordNew name birthday)

end SrcMain

/-- Model of `date.replace(year=y)` in Python: keeps day and month, replaces
the year; raises `ValueError` ("day is out of range for month") when the
resulting combination is not a valid date — the only such case arising from a
valid date is February 29 moved to a non-leap year. -/
def replaceYear (d : Date) (y : Nat) : Option Date :=
  if validDate y d.month d.day then some ⟨d.day, d.month, y⟩ else none

namespace SrcOne

/-- Message of the `ValueError` raised by `date.replace` on an invalid day
for the target month. -/
def replaceMsg : String :=
  "day is out of range for month"

/-- The weekend adjustment of `get_upcoming_birthdays` in `src/1.py`:
`if congratulation_date.weekday() >= 5: congratulation_date +=
timedelta(days=(7 - congratulation_date.weekday()))`. -/
def shiftWeekend (d : Date) : Date :=
  if 5 ≤ weekday d then addDays d (7 - weekday d) else d

/-- The window test of `get_upcoming_birthdays` in `src/1.py`:
`days_until_birthday = (birthday_this_year - today).days` followed by
`if 0 <= days_until_birthday <= 7`, then the weekend adjustment. -/
def windowCheck (today : Date) (name : String) (b2 : Date) :
    Option (String × Date) :=
  if 0 ≤ (rataDie b2 : Int) - (rataDie today : Int) ∧
     (rataDie b2 : Int) - (rataDie today : Int) ≤ 7 then
    some (name, shiftWeekend b2)
  else none

/-- Continuation of the loop body after the (possible) advance to next
year's occurrence: a failed `replace` raises, otherwise the window test
runs. -/
def stepSecond (today : Date) (name : String) :
    Option Date → Except String (Option (String × Date))
  | none => .error replaceMsg
  | some b2 => .ok (windowCheck today name b2)

/-- Continuation of the loop body after `birthday_this_year =
birthday_date.replace(year=today.year)`: a failed `replace` raises,
otherwise the date is advanced by one year when strictly before today. -/
def stepFirst (today : Date) (name : String) :
    Option Date → Except String (Option (String × Date))
  | none => .error replaceMsg
  | some bty =>
    stepSecond today name
      (if dateLt bty today then replaceYear bty (today.year + 1)
       else some bty)

/-- Dispatch of the loop body on `if record.birthday:`. -/
def stepBirthday (today : Date) (name : String) :
    Option Date → Except String (Option (String × Date))
  | none => .ok none
  | some b => stepFirst today name (replaceYear b today.year)

/-- Loop body of `AddressBook.get_upcoming_birthdays` in `src/1.py` for one
record, given `today`: skip records without a birthday; move the stored
day/month to this year (raising when invalid); move it one further year when
it is strictly before today (again raising when invalid); keep it when the
whole-day difference to today is between 0 and 7; shift a Saturday or Sunday
forward by `7 - weekday` days. -/
def upcomingStep (today : Date) (r : Record) :
    Except String (Option (String × Date)) :=
  stepBirthday today r.name r.birthday

/-- The `for record in self.data.values()` loop of
`get_upcoming_birthdays`: results are appended in registry order; an
exception raised at any record propagates and discards the whole result. -/
def upcomingLoop (today : Date) : List Record →
    Except String (List (String × Date))
  | [] => .ok []
  | r :: rest =>
    match upcomingStep today r with
    | .error e => .error e
    | .ok none => upcomingLoop today rest
    | .ok (some p) =>
      match upcomingLoop today rest with
      | .error e => .error e
      | .ok tail => .ok (p :: tail)

/-- `AddressBook.get_upcoming_birthdays` of `src/1.py`, with `today`
(obtained from `datetime.now()` in the source) passed explicitly. -/
def get_upcoming_birthdays (b : Book) (today : Date) :
    Except String (List (String × Date)) :=
  upcomingLoop today (b.map Prod.snd)

/-- Body of `add_contact` in `src/1.py` after `book.find(name)`: on an
existing record the validated phone is appended to it (in-place mutation of
the aliased record), otherwise a fresh record with that one phone is built
and inserted; the `Phone` constructor raises before any mutation of the
book. -/
def addToExisting (b : Book) (name phone : String) :
    Option Record → Book × Except String String
  | some r =>
    if phoneValid phone then
      (setKey b name { r with phones := r.phones ++ [phone] },
       .ok "Phone added.")
    else (b, .error phoneMsg)
  | none =>
    if phoneValid phone then
      (setKey b name ⟨name, [phone], none⟩, .ok "Contact added.")
    else (b, .error phoneMsg)

/-- `add_contact` of `src/1.py` (before the `input_error` wrapper): raises
the arity `ValueError` unless exactly two arguments are given, then
dispatches on `book.find(name)`. -/
def add_contact (args : List String) (b : Book) :
    Book × Except String String :=
  match args with
  | [name, phone] => addToExisting b name phone (findRec b name)
  | _ => (b, .error "Give me name and phone please.")

end SrcOne

/-- Specification-side weekend adjustment, in the claim's words: shifted to
the following Monday, by 2 days from Saturday (weekday 5) and by 1 day from
Sunday (weekday 6), otherwise unshifted. -/
def specShiftWeekend (d : Date) : Date :=
  if weekday d = 5 then addDays d 2
  else if weekday d = 6 then addDays d 1
  else d

/-- Specification-side window test, in the claim's words: the date lies
between 0 and 7 whole days from today inclusive. -/
def specWindowCheck (today : Date) (name : String) (b2 : Date) :
    Option (String × Date) :=
  if rataDie today ≤ rataDie b2 ∧ rataDie b2 ≤ rataDie today + 7 then
    some (name, specShiftWeekend b2)
  else none

/-- Specification-side continuation after the advance to next year; an
invalid reinterpretation contributes nothing. -/
def specStepSecond (today : Date) (name : String) :
    Option Date → Option (String × Date)
  | none => none
  | some b2 => specWindowCheck today name b2

/-- Specification-side continuation after the reinterpretation on today's
year: advanced by exactly one year when strictly before today. -/
def specStepFirst (today : Date) (name : String) :
    Option Date → Option (String × Date)
  | none => none
  | some bty =>
    specStepSecond today name
      (if dateLt bty today then replaceYear bty (today.year + 1)
       else some bty)

/-- Specification-side dispatch on whether a birthday is set. -/
def specStepBirthday (today : Date) (name : String) :
    Option Date → Option (String × Date)
  | none => none
  | some b => specStepFirst today name (replaceYear b today.year)

/-- Written from the specification's words for the upcoming-birthday claim:
a record with a birthday set contributes exactly when its stored day/month,
reinterpreted on today's year and advanced by exactly one year when strictly
before today, lies between 0 and 7 whole days from today inclusive; the
emitted date is shifted to the following Monday (by 2 days from Saturday,
weekday 5, and by 1 day from Sunday, weekday 6), otherwise unshifted.
Records whose reinterpretation produces no valid date contribute nothing. -/
def upcomingSpecStep (today : Date) (r : Record) : Option (String × Date) :=
  specStepBirthday today r.name r.birthday

/-- Specification-side list of upcoming birthdays: the records that satisfy
the window condition, in registry order. -/
def upcomingSpec (b : Book) (today : Date) : List (String × Date) :=
  (b.map Prod.snd).filterMap (upcomingSpecStep today)

/-- The keys of a book are pairwise distinct: invariant of every book built
through the dictionary operations. -/
def keysNodup (b : Book) : Prop :=
  (keys b).Nodup

instance decKeysNodup (b : Book) : Decidable (keysNodup b) :=
  inferInstanceAs (Decidable ((keys b).Nodup))

/-- The record invariant of the specification: every stored phone satisfies
the ten-digit rule. -/
def phonesValid (r : Record) : Prop :=
  ∀ p ∈ r.phones, phoneValid p = true

instance decPhonesValid (r : Record) : Decidable (phonesValid r) :=
  inferInstanceAs (Decidable (∀ p ∈ r.phones, phoneValid p = true))

/-- The record operations available in `src/1.py`. -/
inductive OneOp where
  | addPhone (p : String)
  | editPhone (o n : String)
  | removePhone (p : String)
  | setBirthday (s : String)

/-- The record operations available in `src/main.py` (its `Record` has no
birthday setter; the birthday is fixed at construction). -/
inductive MainOp where
  | addPhone (p : String)
  | editPhone (o n : String)
  | removePhone (p : String)

/-- Condition on a `src/1.py` operation that its `edit_phone` never checks:
the replacement value of an edit satisfies the phone rule. -/
def OneOp.editOk : OneOp → Bool
  | .editPhone _ n => phoneValid n
  | _ => true

/-- Post-state of a `src/1.py` record operation (also on error, where the
state is whatever it was when the exception was raised). -/
def SrcOne.applyOp (r : Record) : OneOp → Record
  | .addPhone p => (SrcOne.add_phone r p).1
  | .editPhone o n => (SrcOne.edit_phone r o n).1
  | .removePhone p => (SrcOne.remove_phone r p).1
  | .setBirthday s => (SrcOne.add_birthday r s).1

/-- Post-state of a sequence of `src/1.py` record operations. -/
def SrcOne.applySeq (r : Record) (ops : List OneOp) : Record :=
  ops.foldl SrcOne.applyOp r

/-- Post-state of a `src/main.py` record operation. -/
def SrcMain.applyOp (r : Record) : MainOp → Record
  | .addPhone p => (SrcMain.add_phone r p).1
  | .editPhone o n => (SrcMain.edit_phone r o n).1
  | .removePhone p => (SrcMain.remove_phone r p).1

/-- Post-state of a sequence of `src/main.py` record operations. -/
def SrcMain.applySeq (r : Record) (ops : List MainOp) : Record :=
  ops.foldl SrcMain.applyOp r

/-- Written from the specification's words for the birthday-format claim: the
string matches the exact pattern day(2 digits).month(2 digits).year(4
digits) and denotes a real calendar date. -/
def specStrictDDMMYYYY (l : List Char) : Bool :=
  match splitDots l with
  | [ds, ms, ys] =>
    ds.all Char.isDigit && ds.length == 2 &&
    ms.all Char.isDigit && ms.length == 2 &&
    ys.all Char.isDigit && ys.length == 4 &&
    validDate (decodeDigits ys) (decodeDigits ms) (decodeDigits ds)
  | _ => false

/-- Lenient date shape actually accepted by `strptime("%d.%m.%Y")`: a
one-or-two-digit day, a dot, a one-or-two-digit month, a dot, exactly four
digits of year, together denoting a real calendar date of year at least 1. -/
def lenientDMY (l : List Char) : Prop :=
  ∃ ds ms ys : List Char,
    l = ds ++ '.' :: (ms ++ '.' :: ys) ∧
    ds.all Char.isDigit = true ∧ 1 ≤ ds.length ∧ ds.length ≤ 2 ∧
    ms.all Char.isDigit = true ∧ 1 ≤ ms.length ∧ ms.length ≤ 2 ∧
    ys.all Char.isDigit = true ∧ ys.length = 4 ∧
    validDate (decodeDigits ys) (decodeDigits ms) (decodeDigits ds) = true

/-- Join a list of segments with dots: left inverse of `splitDots`. -/
def joinDots : List (List Char) → List Char
  | [] => []
  | [x] => x
  | x :: r => x ++ '.' :: joinDots r

/-! Helper lemmas about the list and dictionary primitives. -/

theorem firstIdx_eq_none {l : List String} {x : String} :
    firstIdx l x = none ↔ ∀ p ∈ l, p ≠ x := by
  induction l with
  | nil => simp [firstIdx]
  | cons a t ih =>
    by_cases h : a = x <;> simp [firstIdx, h, ih]

theorem firstIdx_some {l : List String} {x : String} {i : Nat}
    (h : firstIdx l x = some i) :
    i < l.length ∧ l[i]? = some x ∧ ∀ j < i, l[j]? ≠ some x := by
  induction l generalizing i with
  | nil => simp [firstIdx] at h
  | cons a t ih =>
    by_cases ha : a = x
    · simp [firstIdx, ha] at h
      subst h
      simp [ha]
    · simp [firstIdx, ha] at h
      obtain ⟨i', hi', rfl⟩ := h
      obtain ⟨h1, h2, h3⟩ := ih hi'
      refine ⟨by simpa using h1, by simpa using h2, ?_⟩
      intro j hj
      cases j with
      | zero => simpa using ha
      | succ j' =>
        simpa using h3 j' (by omega)

theorem length_putAt (l : List String) (i : Nat) (x : String) :
    (putAt l i x).length = l.length := by
  induction l generalizing i with
  | nil => simp [putAt]
  | cons a t ih =>
    cases i with
    | zero => simp [putAt]
    | succ i' => simp [putAt, ih]

theorem getElem?_putAt_self {l : List String} {i : Nat} (x : String)
    (h : i < l.length) : (putAt l i x)[i]? = some x := by
  induction l generalizing i with
  | nil => simp at h
  | cons a t ih =>
    cases i with
    | zero => simp [putAt]
    | succ i' =>
      simp only [putAt, List.getElem?_cons_succ]
      exact ih (by simpa using h)

theorem getElem?_putAt_ne {l : List String} {i j : Nat} (x : String)
    (h : j ≠ i) : (putAt l i x)[j]? = l[j]? := by
  induction l generalizing i j with
  | nil => simp [putAt]
  | cons a t ih =>
    cases i with
    | zero =>
      cases j with
      | zero => omega
      | succ j' => simp [putAt]
    | succ i' =>
      cases j with
      | zero => simp [putAt]
      | succ j' =>
        simp only [putAt, List.getElem?_cons_succ]
        exact ih (by omega)

theorem all_putAt {P : String → Prop} {l : List String} {i : Nat} {x : String}
    (hl : ∀ p ∈ l, P p) (hx : P x) : ∀ p ∈ putAt l i x, P p := by
  induction l generalizing i with
  | nil => simp [putAt]
  | cons a t ih =>
    cases i with
    | zero =>
      intro p hp
      rcases List.mem_cons.mp hp with rfl | hp
      · exact hx
      · exact hl p (List.mem_cons_of_mem _ hp)
    | succ i' =>
      intro p hp
      rcases List.mem_cons.mp hp with rfl | hp
      · exact hl p (List.mem_cons_self _ _)
      · exact ih (fun q hq => hl q (List.mem_cons_of_mem _ hq)) p hp

theorem length_removeAt {l : List String} {i : Nat} (h : i < l.length) :
    (removeAt l i).length + 1 = l.length := by
  induction l generalizing i with
  | nil => simp at h
  | cons a t ih =>
    cases i with
    | zero => simp [removeAt]
    | succ i' =>
      simp only [removeAt, List.length_cons]
      rw [← ih (by simpa using h)]

theorem getElem?_removeAt_lt {l : List String} {i j : Nat} (h : j < i) :
    (removeAt l i)[j]? = l[j]? := by
  induction l generalizing i j with
  | nil => simp [removeAt]
  | cons a t ih =>
    cases i with
    | zero => omega
    | succ i' =>
      cases j with
      | zero => simp [removeAt]
      | succ j' =>
        simp only [removeAt, List.getElem?_cons_succ]
        exact ih (by omega)

theorem getElem?_removeAt_ge {l : List String} {i j : Nat} (h : i ≤ j) :
    (removeAt l i)[j]? = l[j + 1]? := by
  induction l generalizing i j with
  | nil => simp [removeAt]
  | cons a t ih =>
    cases i with
    | zero => simp [removeAt]
    | succ i' =>
      cases j with
      | zero => omega
      | succ j' =>
        simp only [removeAt, List.getElem?_cons_succ]
        exact ih (by omega)

theorem all_removeAt {P : String → Prop} {l : List String} {i : Nat}
    (hl : ∀ p ∈ l, P p) : ∀ p ∈ removeAt l i, P p := by
  induction l generalizing i with
  | nil => simp [removeAt]
  | cons a t ih =>
    cases i with
    | zero => exact fun p hp => hl p (List.mem_cons_of_mem _ hp)
    | succ i' =>
      intro p hp
      rcases List.mem_cons.mp hp with rfl | hp
      · exact hl p (List.mem_cons_self _ _)
      · exact ih (fun q hq => hl q (List.mem_cons_of_mem _ hq)) p hp

theorem all_removeLoop {P : String → Prop} {x : String} :
    ∀ {l : List String}, (∀ p ∈ l, P p) → ∀ p ∈ SrcOne.removeLoop l x, P p
  | [], _ => by simp [SrcOne.removeLoop]
  | [a], hl => by
    intro p hp
    simp only [SrcOne.removeLoop] at hp
    by_cases h : a = x
    · rw [if_pos h] at hp
      simp at hp
    · rw [if_neg h] at hp
      rcases List.mem_cons.mp hp with rfl | hp
      · exact hl p (by simp)
      · simp at hp
  | a :: b :: t, hl => by
    intro p hp
    by_cases h : a = x
    · simp only [SrcOne.removeLoop, if_pos h] at hp
      rcases List.mem_cons.mp hp with rfl | hp
      · exact hl p (by simp)
      · exact all_removeLoop (fun q hq => hl q (by simp [hq])) p hp
    · simp only [SrcOne.removeLoop, if_neg h] at hp
      rcases List.mem_cons.mp hp with rfl | hp
      · exact hl p (by simp)
      · exact all_removeLoop (fun q hq => by
          rcases List.mem_cons.mp hq with rfl | hq
          · exact hl q (by simp)
          · exact hl q (by simp [hq])) p hp

theorem removeLoop_of_not_mem {x : String} :
    ∀ {l : List String}, (∀ p ∈ l, p ≠ x) → SrcOne.removeLoop l x = l
  | [], _ => rfl
  | [a], hl => by simp [SrcOne.removeLoop, hl a (by simp)]
  | a :: b :: t, hl => by
    have ha : a ≠ x := hl a (by simp)
    simp only [SrcOne.removeLoop, if_neg ha]
    rw [removeLoop_of_not_mem (fun q hq => hl q (by simp [hq]))]

theorem findRec_setKey_self (b : Book) (n : String) (v : Record) :
    findRec (setKey b n v) n = some v := by
  induction b with
  | nil => simp [setKey, findRec]
  | cons e t ih =>
    obtain ⟨k, w⟩ := e
    by_cases h : k = n <;> simp [setKey, findRec, h, ih]

theorem findRec_setKey_ne (b : Book) {n k : String} (v : Record)
    (h : k ≠ n) : findRec (setKey b n v) k = findRec b k := by
  have hnk : n ≠ k := Ne.symm h
  induction b with
  | nil => simp [setKey, findRec, hnk]
  | cons e t ih =>
    obtain ⟨k', w⟩ := e
    by_cases h' : k' = n
    · subst h'
      simp [setKey, findRec, hnk]
    · by_cases h'' : k' = k <;> simp [setKey, findRec, h', h'', h, ih]

theorem length_setKey_of_found {b : Book} {n : String} {r : Record}
    (h : findRec b n = some r) (v : Record) :
    (setKey b n v).length = b.length := by
  induction b with
  | nil => simp [findRec] at h
  | cons e t ih =>
    obtain ⟨k, w⟩ := e
    by_cases hk : k = n
    · simp [setKey, hk]
    · simp only [findRec, if_neg hk] at h
      simp [setKey, hk, ih h]

theorem findRec_eq_none_of_not_mem {b : Book} {n : String}
    (h : n ∉ keys b) : findRec b n = none := by
  induction b with
  | nil => rfl
  | cons e t ih =>
    obtain ⟨k, w⟩ := e
    simp only [keys, List.map_cons, List.mem_cons] at h
    push_neg at h
    have hk : k ≠ n := Ne.symm h.1
    simp [findRec, hk, ih (by simpa [keys] using h.2)]

theorem findRec_removeKey_self {b : Book} {n : String}
    (h : keysNodup b) : findRec (removeKey b n) n = none := by
  induction b with
  | nil => rfl
  | cons e t ih =>
    obtain ⟨k, w⟩ := e
    simp only [keysNodup, keys, List.map_cons, List.nodup_cons] at h
    by_cases hk : k = n
    · subst hk
      simp only [removeKey, if_true]
      exact findRec_eq_none_of_not_mem (by simpa [keys] using h.1)
    · simp [removeKey, findRec, hk, ih h.2]

theorem mem_keys_removeKey {b : Book} {n x : String}
    (h : x ∈ keys (removeKey b n)) : x ∈ keys b := by
  induction b with
  | nil => exact h
  | cons e t ih =>
    obtain ⟨k, w⟩ := e
    by_cases hk : k = n
    · simp only [removeKey, if_pos hk] at h
      simp [keys, List.mem_cons]
      right
      simpa [keys] using h
    · simp only [removeKey, if_neg hk, keys, List.map_cons, List.mem_cons] at h
      rcases h with h | h
      · simp [keys, h]
      · simp only [keys, List.map_cons, List.mem_cons]
        exact Or.inr (ih (by simpa [keys] using h))

theorem keysNodup_removeKey {b : Book} {n : String}
    (h : keysNodup b) : keysNodup (removeKey b n) := by
  induction b with
  | nil => exact h
  | cons e t ih =>
    obtain ⟨k, w⟩ := e
    simp only [keysNodup, keys, List.map_cons, List.nodup_cons] at h
    by_cases hk : k = n
    · simpa [removeKey, hk, keysNodup] using h.2
    · simp only [removeKey, if_neg hk, keysNodup, keys, List.map_cons,
        List.nodup_cons]
      exact ⟨fun hm => h.1 (mem_keys_removeKey hm), ih h.2⟩

theorem weekday_lt (d : Date) : weekday d < 7 :=
  Nat.mod_lt _ (by decide)

theorem char_eq_of_toNat {c d : Char} (h : c.val.toNat = d.val.toNat) :
    c = d :=
  Char.ext (UInt32.ext h)

theorem isDigit_iff_mem (c : Char) :
    c.isDigit = true ↔ c ∈ "0123456789".data := by
  constructor
  · intro h
    simp [Char.isDigit] at h
    obtain ⟨h1, h2⟩ := h
    have h1' : 48 ≤ c.val.toNat := h1
    have h2' : c.val.toNat ≤ 57 := h2
    have hd : c.val.toNat = 48 ∨ c.val.toNat = 49 ∨ c.val.toNat = 50 ∨
        c.val.toNat = 51 ∨ c.val.toNat = 52 ∨ c.val.toNat = 53 ∨
        c.val.toNat = 54 ∨ c.val.toNat = 55 ∨ c.val.toNat = 56 ∨
        c.val.toNat = 57 := by omega
    rcases hd with h | h | h | h | h | h | h | h | h | h
    · have hc : c = '0' := char_eq_of_toNat (by rw [h]; decide)
      rw [hc]; decide
    · have hc : c = '1' := char_eq_of_toNat (by rw [h]; decide)
      rw [hc]; decide
    · have hc : c = '2' := char_eq_of_toNat (by rw [h]; decide)
      rw [hc]; decide
    · have hc : c = '3' := char_eq_of_toNat (by rw [h]; decide)
      rw [hc]; decide
    · have hc : c = '4' := char_eq_of_toNat (by rw [h]; decide)
      rw [hc]; decide
    · have hc : c = '5' := char_eq_of_toNat (by rw [h]; decide)
      rw [hc]; decide
    · have hc : c = '6' := char_eq_of_toNat (by rw [h]; decide)
      rw [hc]; decide
    · have hc : c = '7' := char_eq_of_toNat (by rw [h]; decide)
      rw [hc]; decide
    · have hc : c = '8' := char_eq_of_toNat (by rw [h]; decide)
      rw [hc]; decide
    · have hc : c = '9' := char_eq_of_toNat (by rw [h]; decide)
      rw [hc]; decide
  · intro h
    fin_cases h <;> decide

theorem phoneValid_iff (s : String) :
    phoneValid s = true ↔
      s.length = 10 ∧ ∀ c ∈ s.data, c ∈ "0123456789".data := by
  unfold phoneValid
  rw [Bool.and_eq_true, beq_iff_eq, List.all_eq_true]
  constructor
  · rintro ⟨hl, hd⟩
    exact ⟨hl, fun c hc => (isDigit_iff_mem c).mp (by simpa using hd c hc)⟩
  · rintro ⟨hl, hd⟩
    exact ⟨hl, fun c hc => by simpa using (isDigit_iff_mem c).mpr (hd c hc)⟩

/-- C3: for every string `s`, constructing a `Phone` from `s` (in either
source file) succeeds if and only if `s` has length exactly 10 and every
character of `s` is a decimal digit; on success the stored value equals `s`,
and for every other string construction fails with the validation error. -/
theorem c3_phone_construction (s : String) :
    ((s.length = 10 ∧ ∀ c ∈ s.data, c ∈ "0123456789".data) →
      SrcOne.phoneNew s = .ok s ∧ SrcMain.phoneNew s = .ok s) ∧
    (¬(s.length = 10 ∧ ∀ c ∈ s.data, c ∈ "0123456789".data) →
      SrcOne.phoneNew s = .error SrcOne.phoneMsg ∧
      SrcMain.phoneNew s = .error SrcMain.phoneMsg) := by
  constructor
  · intro h
    have hv : phoneValid s = true := (phoneValid_iff s).mpr h
    constructor <;> simp [SrcOne.phoneNew, SrcMain.phoneNew, hv]
  · intro h
    have hv : phoneValid s = false := by
      cases hb : phoneValid s with
      | false => rfl
      | true => exact absurd ((phoneValid_iff s).mp hb) h
    constructor <;> simp [SrcOne.phoneNew, SrcMain.phoneNew, hv]

/-- Witness for C3 at the concrete strings "0123456789" and "12345". -/
theorem c3_phone_construction_witness :
    (SrcOne.phoneNew "0123456789" = .ok "0123456789" ∧
      SrcMain.phoneNew "0123456789" = .ok "0123456789") ∧
    (SrcOne.phoneNew "12345" = .error SrcOne.phoneMsg ∧
      SrcMain.phoneNew "12345" = .error SrcMain.phoneMsg) :=
  ⟨(c3_phone_construction "0123456789").1 (by decide),
   (c3_phone_construction "12345").2 (by decide)⟩

/-- C10: a registry whose every field satisfies its validation rule — here a
single record with the valid stored birthday 29.02.2024 — makes
`get_upcoming_birthdays` raise the unhandled `ValueError` of
`date.replace` when the current year (2025) is not a leap year, instead of
returning a result list. -/
theorem c10_feb29_unhandled :
    SrcOne.get_upcoming_birthdays
        [("Leap", ⟨"Leap", [], some ⟨29, 2, 2024⟩⟩)] ⟨10, 2, 2025⟩ =
      .error SrcOne.replaceMsg ∧
    birthdayParse "29.02.2024" = some ⟨29, 2, 2024⟩ := by
  constructor
  · rfl
  · rfl

theorem specShiftWeekend_eq (d : Date) :
    specShiftWeekend d = SrcOne.shiftWeekend d := by
  unfold specShiftWeekend SrcOne.shiftWeekend
  have hw : weekday d < 7 := weekday_lt d
  by_cases w5 : weekday d = 5
  · rw [w5]
    norm_num
  · by_cases w6 : weekday d = 6
    · rw [w6]
      norm_num
    · have hck : ¬ 5 ≤ weekday d := by omega
      rw [if_neg w5, if_neg w6, if_neg hck]

theorem specWindowCheck_eq (today : Date) (name : String) (b2 : Date) :
    specWindowCheck today name b2 = SrcOne.windowCheck today name b2 := by
  unfold specWindowCheck SrcOne.windowCheck
  by_cases hc : (0 : Int) ≤ (rataDie b2 : Int) - (rataDie today : Int) ∧
      (rataDie b2 : Int) - (rataDie today : Int) ≤ 7
  · have hcn : rataDie today ≤ rataDie b2 ∧
        rataDie b2 ≤ rataDie today + 7 := by
      obtain ⟨hc1, hc2⟩ := hc
      omega
    rw [if_pos hc, if_pos hcn, specShiftWeekend_eq]
  · have hcn : ¬(rataDie today ≤ rataDie b2 ∧
        rataDie b2 ≤ rataDie today + 7) := by
      intro hcc
      exact hc ⟨by omega, by omega⟩
    rw [if_neg hc, if_neg hcn]

theorem upcomingStep_ok {today : Date} {r : Record}
    {x : Option (String × Date)}
    (h : SrcOne.upcomingStep today r = .ok x) :
    upcomingSpecStep today r = x := by
  unfold SrcOne.upcomingStep at h
  unfold upcomingSpecStep
  cases hb : r.birthday with
  | none =>
    rw [hb] at h
    simp only [SrcOne.stepBirthday] at h
    cases h
    rfl
  | some b =>
    rw [hb] at h
    simp only [SrcOne.stepBirthday] at h
    simp only [specStepBirthday]
    cases h1 : replaceYear b today.year with
    | none =>
      rw [h1] at h
      simp only [SrcOne.stepFirst] at h
      simp at h
    | some bty =>
      rw [h1] at h
      simp only [SrcOne.stepFirst] at h
      simp only [specStepFirst]
      cases h2 : (if dateLt bty today then replaceYear bty (today.year + 1)
                  else some bty) with
      | none =>
        rw [h2] at h
        simp only [SrcOne.stepSecond] at h
        simp at h
      | some b2 =>
        rw [h2] at h
        simp only [SrcOne.stepSecond] at h
        simp only [specStepSecond]
        cases h
        exact specWindowCheck_eq today r.name b2

theorem upcomingLoop_ok {today : Date} {recs : List Record}
    {out : List (String × Date)}
    (h : SrcOne.upcomingLoop today recs = .ok out) :
    out = recs.filterMap (upcomingSpecStep today) := by
  induction recs generalizing out with
  | nil =>
    unfold SrcOne.upcomingLoop at h
    cases h
    rfl
  | cons r rest ih =>
    unfold SrcOne.upcomingLoop at h
    cases hs : SrcOne.upcomingStep today r with
    | error e => rw [hs] at h; simp at h
    | ok xo =>
      rw [hs] at h
      have hspec := upcomingStep_ok hs
      cases xo with
      | none =>
        rw [List.filterMap_cons, hspec]
        exact ih h
      | some p =>
        cases ht : SrcOne.upcomingLoop today rest with
        | error e => rw [ht] at h; simp at h
        | ok tail =>
          rw [ht] at h
          cases h
          rw [List.filterMap_cons, hspec]
          rw [ih ht]

/-- C2: whenever `get_upcoming_birthdays` returns a list at all, that list
consists exactly of the records with a birthday set whose stored day/month,
reinterpreted on today's year and advanced by exactly one year when strictly
before today, lies between 0 and 7 whole days from today inclusive; each
emitted pair carries that date, shifted forward by `7 - weekday` days to the
following Monday when it falls on Saturday (weekday 5, shift 2) or Sunday
(weekday 6, shift 1), and otherwise unshifted — as captured by the
specification-side function `upcomingSpec`. -/
theorem c2_upcoming_window (b : Book) (today : Date)
    (out : List (String × Date))
    (h : SrcOne.get_upcoming_birthdays b today = .ok out) :
    out = upcomingSpec b today := by
  unfold SrcOne.get_upcoming_birthdays at h
  unfold upcomingSpec
  exact upcomingLoop_ok h

/-- Witness for C2: a registry with a plain in-window birthday and a
Saturday birthday, queried on Monday 2024-06-10; the Saturday one shifts to
Monday 2024-06-17. -/
theorem c2_upcoming_window_witness :
    upcomingSpec
        [("A", ⟨"A", [], some ⟨12, 6, 1990⟩⟩),
         ("B", ⟨"B", [], some ⟨15, 6, 1990⟩⟩)] ⟨10, 6, 2024⟩ =
      [("A", ⟨12, 6, 2024⟩), ("B", ⟨17, 6, 2024⟩)] :=
  (c2_upcoming_window _ _ _ (by rfl)).symm

theorem phonesValid_applyOp_main (r : Record) (op : MainOp)
    (h : phonesValid r) : phonesValid (SrcMain.applyOp r op) := by
  cases op with
  | addPhone p =>
    simp only [SrcMain.applyOp, SrcMain.add_phone]
    by_cases hv : phoneValid p
    · rw [if_pos hv]
      intro q hq
      rcases List.mem_append.mp hq with hq | hq
      · exact h q hq
      · rw [List.mem_singleton.mp hq]
        exact hv
    · rw [if_neg hv]
      exact h
  | editPhone o n =>
    simp only [SrcMain.applyOp, SrcMain.edit_phone]
    cases hf : firstIdx r.phones o with
    | some i =>
      simp only [SrcMain.editAt]
      by_cases hv : phoneValid n
      · rw [if_pos hv]
        exact all_putAt h hv
      · rw [if_neg hv]
        exact h
    | none => exact h
  | removePhone p =>
    simp only [SrcMain.applyOp, SrcMain.remove_phone]
    cases hf : firstIdx r.phones p with
    | some i => exact all_removeAt h
    | none => exact h

theorem phonesValid_applyOp_one (r : Record) (op : OneOp)
    (h : phonesValid r) (hop : op.editOk = true) :
    phonesValid (SrcOne.applyOp r op) := by
  cases op with
  | addPhone p =>
    simp only [SrcOne.applyOp, SrcOne.add_phone]
    by_cases hv : phoneValid p
    · rw [if_pos hv]
      intro q hq
      rcases List.mem_append.mp hq with hq | hq
      · exact h q hq
      · rw [List.mem_singleton.mp hq]
        exact hv
    · rw [if_neg hv]
      exact h
  | editPhone o n =>
    simp only [SrcOne.applyOp, SrcOne.edit_phone]
    cases hf : firstIdx r.phones o with
    | some i => exact all_putAt h hop
    | none => exact h
  | removePhone p =>
    exact all_removeLoop h
  | setBirthday s =>
    simp only [SrcOne.applyOp, SrcOne.add_birthday]
    cases hb : birthdayParse s with
    | some d => exact h
    | none => exact h

theorem phonesValid_applySeq_main (r : Record) (ops : List MainOp)
    (h : phonesValid r) : phonesValid (SrcMain.applySeq r ops) := by
  induction ops generalizing r with
  | nil => exact h
  | cons op rest ih =>
    exact ih (SrcMain.applyOp r op) (phonesValid_applyOp_main r op h)

theorem phonesValid_applySeq_one (r : Record) (ops : List OneOp)
    (h : phonesValid r) (hops : ∀ op ∈ ops, op.editOk = true) :
    phonesValid (SrcOne.applySeq r ops) := by
  induction ops generalizing r with
  | nil => exact h
  | cons op rest ih =>
    exact ih (SrcOne.applyOp r op)
      (phonesValid_applyOp_one r op h (hops op (List.mem_cons_self _ _)))
      (fun q hq => hops q (List.mem_cons_of_mem _ hq))

/-- C1 counterexample: in `src/1.py`, `edit_phone` stores the new value
without validating it, so a record whose every phone satisfies the ten-digit
rule can be driven, by one record operation that reports success, into a
state with a stored phone violating the rule — refuting "every Phone stored
in the record satisfies the 10-digit rule at all times". -/
theorem c1_counterexample :
    (SrcOne.edit_phone ⟨"A", ["0123456789"], none⟩
      "0123456789" "oops").2 = .ok () ∧
    phonesValid (⟨"A", ["0123456789"], none⟩ : Record) ∧
    ¬ phonesValid (SrcOne.edit_phone ⟨"A", ["0123456789"], none⟩
      "0123456789" "oops").1 := by
  refine ⟨rfl, by decide, by decide⟩

/-- C1 (amended): every `src/main.py` record operation (addPhone, editPhone,
removePhone) validates before storing, so any sequence of them preserves the
invariant that every stored phone satisfies the 10-digit rule; in `src/1.py`
the same holds for addPhone, removePhone and setBirthday, but its editPhone
stores the new value unvalidated, so sequences of its operations preserve
the invariant only when every edit's replacement value itself satisfies the
rule. -/
theorem c1_phone_invariant_amended :
    (∀ (r : Record) (ops : List MainOp), phonesValid r →
      phonesValid (SrcMain.applySeq r ops)) ∧
    (∀ (r : Record) (ops : List OneOp), phonesValid r →
      (∀ op ∈ ops, op.editOk = true) →
      phonesValid (SrcOne.applySeq r ops)) :=
  ⟨phonesValid_applySeq_main, phonesValid_applySeq_one⟩

/-- Witness for the amended C1 on concrete operation sequences. -/
theorem c1_phone_invariant_amended_witness :
    phonesValid (SrcMain.applySeq ⟨"A", ["0123456789"], none⟩
      [.addPhone "1234567890", .editPhone "0123456789" "9876543210",
       .removePhone "1234567890"]) ∧
    phonesValid (SrcOne.applySeq ⟨"A", ["0123456789"], none⟩
      [.addPhone "1234567890", .setBirthday "01.01.2000",
       .editPhone "0123456789" "9876543210"]) :=
  ⟨c1_phone_invariant_amended.1 _ _ (by decide),
   c1_phone_invariant_amended.2 _ _ (by decide) (by decide)⟩

/-- C5 counterexample: in `src/1.py`, `edit_phone` replaces the first
matching phone with the raw new value even when that value fails the phone
rule, instead of storing "the validated new" — the operation succeeds where
the claim requires validation. -/
theorem c5_counterexample :
    SrcOne.edit_phone ⟨"B", ["1112223330"], none⟩ "1112223330" "xy" =
      (⟨"B", ["xy"], none⟩, .ok ()) ∧
    phoneValid "xy" = false := by
  exact ⟨rfl, by decide⟩

/-- C5 (amended): `edit_phone` in `src/main.py` behaves exactly as the claim
states: it replaces the value of the first phone equal to `old` with the
validated `new` (every other position, including later occurrences of `old`,
unchanged), and fails with the not-found error leaving the record unchanged
when no phone equals `old`; `edit_phone` in `src/1.py` performs the same
first-occurrence replacement and not-found behaviour but stores `new`
without validating it. -/
theorem c5_edit_phone_amended :
    (∀ (r : Record) (o n : String) (i : Nat),
       firstIdx r.phones o = some i → phoneValid n = true →
       (SrcMain.edit_phone r o n).2 = .ok () ∧
       (SrcMain.edit_phone r o n).1.name = r.name ∧
       (SrcMain.edit_phone r o n).1.birthday = r.birthday ∧
       (SrcMain.edit_phone r o n).1.phones.length = r.phones.length ∧
       (SrcMain.edit_phone r o n).1.phones[i]? = some n ∧
       (∀ j, j ≠ i → (SrcMain.edit_phone r o n).1.phones[j]? =
         r.phones[j]?) ∧
       (∀ j < i, r.phones[j]? ≠ some o)) ∧
    (∀ (r : Record) (o n : String),
       firstIdx r.phones o = none →
       SrcMain.edit_phone r o n = (r, .error SrcMain.editMsg)) ∧
    (∀ (r : Record) (o n : String) (i : Nat),
       firstIdx r.phones o = some i →
       (SrcOne.edit_phone r o n).2 = .ok () ∧
       (SrcOne.edit_phone r o n).1.phones[i]? = some n ∧
       (∀ j, j ≠ i → (SrcOne.edit_phone r o n).1.phones[j]? =
         r.phones[j]?)) ∧
    (∀ (r : Record) (o n : String),
       firstIdx r.phones o = none →
       SrcOne.edit_phone r o n = (r, .error "Phone number not found")) := by
  refine ⟨?_, ?_, ?_, ?_⟩
  · intro r o n i hf hv
    obtain ⟨hlt, hget, hfirst⟩ := firstIdx_some hf
    unfold SrcMain.edit_phone
    rw [hf]
    simp only [SrcMain.editAt]
    rw [if_pos hv]
    refine ⟨rfl, rfl, rfl, length_putAt _ _ _, getElem?_putAt_self _ hlt,
      ?_, ?_⟩
    · intro j hj
      exact getElem?_putAt_ne _ hj
    · intro j hj
      exact hfirst j hj
  · intro r o n hf
    unfold SrcMain.edit_phone
    rw [hf]
    rfl
  · intro r o n i hf
    obtain ⟨hlt, hget, hfirst⟩ := firstIdx_some hf
    unfold SrcOne.edit_phone
    rw [hf]
    simp only [SrcOne.editAt]
    refine ⟨trivial, getElem?_putAt_self _ hlt, ?_⟩
    intro j hj
    exact getElem?_putAt_ne _ hj
  · intro r o n hf
    unfold SrcOne.edit_phone
    rw [hf]
    rfl

/-- Witness for the amended C5: the §8 example `["1112223330"]`, editing
`1112223330` to `4445556660`, plus a not-found case in each variant. -/
theorem c5_edit_phone_amended_witness :
    (SrcMain.edit_phone ⟨"E", ["1112223330"], none⟩
      "1112223330" "4445556660").1.phones[0]? = some "4445556660" ∧
    SrcMain.edit_phone ⟨"E", ["1112223330"], none⟩ "999" "4445556660" =
      (⟨"E", ["1112223330"], none⟩, .error SrcMain.editMsg) ∧
    (SrcOne.edit_phone ⟨"E", ["1112223330"], none⟩
      "1112223330" "4445556660").1.phones[0]? = some "4445556660" ∧
    SrcOne.edit_phone ⟨"E", ["1112223330"], none⟩ "999" "4445556660" =
      (⟨"E", ["1112223330"], none⟩, .error "Phone number not found") :=
  ⟨(c5_edit_phone_amended.1 _ "1112223330" "4445556660" 0 (by decide)
      (by decide)).2.2.2.2.1,
   c5_edit_phone_amended.2.1 _ "999" "4445556660" (by decide),
   (c5_edit_phone_amended.2.2.1 _ "1112223330" "4445556660" 0
      (by decide)).2.1,
   c5_edit_phone_amended.2.2.2 _ "999" "4445556660" (by decide)⟩

/-- C6 counterexample: `remove_phone` in `src/1.py` neither fails when no
phone matches (silent no-op) nor leaves later duplicates in place: removing
`1112223330` from `["1112223330", "2223334440", "1112223330"]` deletes both
occurrences (the removal-during-iteration skip), and removing an absent
number returns normally instead of raising the claimed not-found error. -/
theorem c6_counterexample :
    SrcOne.remove_phone
        ⟨"A", ["1112223330", "2223334440", "1112223330"], none⟩
        "1112223330" =
      (⟨"A", ["2223334440"], none⟩, .ok ()) ∧
    SrcOne.remove_phone ⟨"A", ["2223334440"], none⟩ "1112223330" =
      (⟨"A", ["2223334440"], none⟩, .ok ()) := by
  exact ⟨rfl, rfl⟩

/-- C6 (amended): `remove_phone` in `src/main.py` behaves exactly as the
claim states: it removes exactly the first phone whose value equals `p`,
leaving every other phone in place in order, and fails with the not-found
error leaving the list unchanged when none matches; `remove_phone` in
`src/1.py` never raises — it is a silent no-op when no phone matches, and
because it removes elements of the list it is iterating over, it can also
remove later duplicates of `p` (skipping the element directly after each
removal). -/
theorem c6_remove_phone_amended :
    (∀ (r : Record) (p : String) (i : Nat),
       firstIdx r.phones p = some i →
       (SrcMain.remove_phone r p).2 = .ok () ∧
       (SrcMain.remove_phone r p).1.name = r.name ∧
       (SrcMain.remove_phone r p).1.birthday = r.birthday ∧
       (SrcMain.remove_phone r p).1.phones.length + 1 = r.phones.length ∧
       (∀ j < i, (SrcMain.remove_phone r p).1.phones[j]? = r.phones[j]?) ∧
       (∀ j, i ≤ j → (SrcMain.remove_phone r p).1.phones[j]? =
         r.phones[j + 1]?) ∧
       (∀ j < i, r.phones[j]? ≠ some p)) ∧
    (∀ (r : Record) (p : String),
       firstIdx r.phones p = none →
       SrcMain.remove_phone r p = (r, .error SrcMain.removeMsg)) ∧
    (∀ (r : Record) (p : String), (SrcOne.remove_phone r p).2 = .ok ()) ∧
    (∀ (r : Record) (p : String), (∀ q ∈ r.phones, q ≠ p) →
       SrcOne.remove_phone r p = (r, .ok ())) := by
  refine ⟨?_, ?_, ?_, ?_⟩
  · intro r p i hf
    obtain ⟨hlt, hget, hfirst⟩ := firstIdx_some hf
    unfold SrcMain.remove_phone
    rw [hf]
    simp only [SrcMain.removeFound]
    refine ⟨trivial, trivial, trivial, length_removeAt hlt, ?_, ?_, ?_⟩
    · intro j hj
      exact getElem?_removeAt_lt hj
    · intro j hj
      exact getElem?_removeAt_ge hj
    · intro j hj
      exact hfirst j hj
  · intro r p hf
    unfold SrcMain.remove_phone
    rw [hf]
    rfl
  · intro r p
    rfl
  · intro r p hq
    unfold SrcOne.remove_phone
    rw [removeLoop_of_not_mem hq]

/-- Witness for the amended C6 on concrete records. -/
theorem c6_remove_phone_amended_witness :
    (SrcMain.remove_phone ⟨"M", ["1112223330", "2223334440"], none⟩
      "1112223330").1.phones[0]? = some "2223334440" ∧
    SrcMain.remove_phone ⟨"M", ["1112223330"], none⟩ "999" =
      (⟨"M", ["1112223330"], none⟩, .error SrcMain.removeMsg) ∧
    SrcOne.remove_phone ⟨"M", ["1112223330"], none⟩ "999" =
      (⟨"M", ["1112223330"], none⟩, .ok ()) :=
  ⟨((c6_remove_phone_amended.1 _ "1112223330" 0
      (by decide)).2.2.2.2.2.1 0 (by decide)).trans rfl,
   c6_remove_phone_amended.2.1 _ "999" (by decide),
   c6_remove_phone_amended.2.2.2 _ "999" (by decide)⟩

/-- C7 counterexample: in `src/1.py` the method `delete` is a silent no-op
on an absent name (`if name in self.data: del ...`, no `else`), so after
deleting the only record the second `delete` of the same name returns
normally instead of failing with the claimed not-found error. -/
theorem c7_counterexample :
    SrcOne.delete [("A", ⟨"A", [], none⟩)] "A" = ([], .ok ()) ∧
    SrcOne.delete [] "A" = ([], .ok ()) := by
  exact ⟨rfl, rfl⟩

/-- C7 (amended): in `src/main.py`, deleting a present name succeeds, a
subsequent `search_record` of that name returns the absent signal `None`
(not an error), and a second `delete_record` fails with the not-found
`ValueError` leaving the book unchanged; in `src/1.py`, `find` after
`delete` likewise returns the absent signal, but `delete` never raises, so
the second `delete` is a silent no-op rather than a failure. -/
theorem c7_delete_find_amended :
    (∀ (b : Book) (n : String) (r : Record), keysNodup b →
       findRec b n = some r →
       (SrcMain.delete_record b n).2 = .ok () ∧
       findRec (SrcMain.delete_record b n).1 n = none ∧
       SrcMain.delete_record (SrcMain.delete_record b n).1 n =
         ((SrcMain.delete_record b n).1, .error SrcMain.notFoundMsg)) ∧
    (∀ (b : Book) (n : String), keysNodup b →
       findRec (SrcOne.delete b n).1 n = none ∧
       SrcOne.delete (SrcOne.delete b n).1 n =
         ((SrcOne.delete b n).1, .ok ())) := by
  constructor
  · intro b n r hnd hf
    have h1 : SrcMain.delete_record b n = (removeKey b n, .ok ()) := by
      unfold SrcMain.delete_record
      rw [hf]
      rfl
    have h2 : findRec (removeKey b n) n = none := findRec_removeKey_self hnd
    refine ⟨by rw [h1], by rw [h1]; exact h2, ?_⟩
    rw [h1]
    unfold SrcMain.delete_record
    rw [h2]
    rfl
  · intro b n hnd
    by_cases hf : (findRec b n).isSome
    · have h1 : SrcOne.delete b n = (removeKey b n, .ok ()) := by
        unfold SrcOne.delete
        rw [if_pos hf]
      have h2 : findRec (removeKey b n) n = none := findRec_removeKey_self hnd
      refine ⟨by rw [h1]; exact h2, ?_⟩
      rw [h1]
      unfold SrcOne.delete
      rw [h2]
      rfl
    · have h0 : findRec b n = none := by
        cases hc : findRec b n with
        | none => rfl
        | some v => rw [hc] at hf; simp at hf
      have h1 : SrcOne.delete b n = (b, .ok ()) := by
        unfold SrcOne.delete
        rw [if_neg hf]
      refine ⟨by rw [h1]; exact h0, ?_⟩
      rw [h1]
      unfold SrcOne.delete
      rw [h0]
      rfl

/-- Witness for the amended C7 on singleton books. -/
theorem c7_delete_find_amended_witness :
    findRec (SrcMain.delete_record
      [("A", (⟨"A", [], none⟩ : Record))] "A").1 "A" = none ∧
    findRec (SrcOne.delete
      [("B", (⟨"B", [], none⟩ : Record))] "B").1 "B" = none :=
  ⟨(c7_delete_find_amended.1 [("A", ⟨"A", [], none⟩)] "A" ⟨"A", [], none⟩
      (by decide) rfl).2.1,
   (c7_delete_find_amended.2 [("B", ⟨"B", [], none⟩)] "B" (by decide)).1⟩

/-- C8: whenever one of the core operations — `edit_phone` and `add_phone`
of `src/main.py`, `add_phone`, `add_birthday` and the `add_contact` entry
point of `src/1.py`, or the record-creation flow of `src/main.py`'s `name`
command (which builds `Record(name, birthday)` with an initial birthday) —
raises an error, the affected record and the registry are left exactly as
they were before the call: validation happens before any mutation. -/
theorem c8_error_state_unchanged :
    (∀ (r : Record) (o n e : String),
       (SrcMain.edit_phone r o n).2 = .error e →
       (SrcMain.edit_phone r o n).1 = r) ∧
    (∀ (r : Record) (p e : String),
       (SrcMain.add_phone r p).2 = .error e →
       (SrcMain.add_phone r p).1 = r) ∧
    (∀ (r : Record) (p e : String),
       (SrcOne.add_phone r p).2 = .error e →
       (SrcOne.add_phone r p).1 = r) ∧
    (∀ (r : Record) (s e : String),
       (SrcOne.add_birthday r s).2 = .error e →
       (SrcOne.add_birthday r s).1 = r) ∧
    (∀ (args : List String) (b : Book) (e : String),
       (SrcOne.add_contact args b).2 = .error e →
       (SrcOne.add_contact args b).1 = b) ∧
    (∀ (b : Book) (name phone birthday e : String),
       (SrcMain.nameCommand b name phone birthday).2 = .error e →
       (SrcMain.nameCommand b name phone birthday).1 = b) := by
  refine ⟨?_, ?_, ?_, ?_, ?_, ?_⟩
  · intro r o n e h
    cases hf : firstIdx r.phones o with
    | some i =>
      by_cases hv : phoneValid n
      · have hop : SrcMain.edit_phone r o n =
            ({ r with phones := putAt r.phones i n }, .ok ()) := by
          unfold SrcMain.edit_phone
          rw [hf]
          simp only [SrcMain.editAt]
          rw [if_pos hv]
        rw [hop] at h
        simp at h
      · have hop : SrcMain.edit_phone r o n =
            (r, .error SrcMain.phoneMsg) := by
          unfold SrcMain.edit_phone
          rw [hf]
          simp only [SrcMain.editAt]
          rw [if_neg hv]
        rw [hop]
    | none =>
      have hop : SrcMain.edit_phone r o n = (r, .error SrcMain.editMsg) := by
        unfold SrcMain.edit_phone
        rw [hf]
        rfl
      rw [hop]
  · intro r p e h
    by_cases hv : phoneValid p
    · have hop : SrcMain.add_phone r p =
          ({ r with phones := r.phones ++ [p] }, .ok ()) := by
        unfold SrcMain.add_phone
        rw [if_pos hv]
      rw [hop] at h
      simp at h
    · have hop : SrcMain.add_phone r p = (r, .error SrcMain.phoneMsg) := by
        unfold SrcMain.add_phone
        rw [if_neg hv]
      rw [hop]
  · intro r p e h
    by_cases hv : phoneValid p
    · have hop : SrcOne.add_phone r p =
          ({ r with phones := r.phones ++ [p] }, .ok ()) := by
        unfold SrcOne.add_phone
        rw [if_pos hv]
      rw [hop] at h
      simp at h
    · have hop : SrcOne.add_phone r p = (r, .error SrcOne.phoneMsg) := by
        unfold SrcOne.add_phone
        rw [if_neg hv]
      rw [hop]
  · intro r s e h
    cases hb : birthdayParse s with
    | some d =>
      have hop : SrcOne.add_birthday r s =
          ({ r with birthday := some d }, .ok ()) := by
        unfold SrcOne.add_birthday
        rw [hb]
        rfl
      rw [hop] at h
      simp at h
    | none =>
      have hop : SrcOne.add_birthday r s = (r, .error SrcOne.birthdayMsg) := by
        unfold SrcOne.add_birthday
        rw [hb]
        rfl
      rw [hop]
  · intro args b e h
    cases args with
    | nil => rfl
    | cons a t =>
      cases t with
      | nil => rfl
      | cons a2 t2 =>
        cases t2 with
        | cons a3 t3 => rfl
        | nil =>
          have hred : SrcOne.add_contact [a, a2] b =
              SrcOne.addToExisting b a a2 (findRec b a) := rfl
          rw [hred] at h ⊢
          cases hf : findRec b a with
          | some r =>
            rw [hf] at h
            by_cases hv : phoneValid a2
            · have hop : SrcOne.addToExisting b a a2 (some r) =
                  (setKey b a { r with phones := r.phones ++ [a2] },
                   .ok "Phone added.") := by
                simp only [SrcOne.addToExisting]
                rw [if_pos hv]
              rw [hop] at h
              simp at h
            · have hop : SrcOne.addToExisting b a a2 (some r) =
                  (b, .error SrcOne.phoneMsg) := by
                simp only [SrcOne.addToExisting]
                rw [if_neg hv]
              rw [hop]
          | none =>
            rw [hf] at h
            by_cases hv : phoneValid a2
            · have hop : SrcOne.addToExisting b a a2 none =
                  (setKey b a ⟨a, [a2], none⟩, .ok "Contact added.") := by
                simp only [SrcOne.addToExisting]
                rw [if_pos hv]
              rw [hop] at h
              simp at h
            · have hop : SrcOne.addToExisting b a a2 none =
                  (b, .error SrcOne.phoneMsg) := by
                simp only [SrcOne.addToExisting]
                rw [if_neg hv]
              rw [hop]
  · intro b name phone birthday e h
    have hcmd : SrcMain.nameCommand b name phone birthday =
        SrcMain.nameRecord b phone (SrcMain.recordNew name birthday) := rfl
    rw [hcmd] at h ⊢
    cases hr : SrcMain.recordNew name birthday with
    | error e2 => rfl
    | ok r =>
      rw [hr] at h
      simp only [SrcMain.nameRecord] at h ⊢
      by_cases hp : phone = ""
      · rw [if_pos hp] at h ⊢
        by_cases hd : (findRec b r.name).isSome
        · have hop : SrcMain.add_record b r = (b, .error SrcMain.dupMsg) := by
            unfold SrcMain.add_record
            rw [if_pos hd]
          rw [hop]
        · have hop : SrcMain.add_record b r =
              (b ++ [(r.name, r)], .ok ()) := by
            unfold SrcMain.add_record
            rw [if_neg hd]
          rw [hop] at h
          simp at h
      · rw [if_neg hp] at h ⊢
        by_cases hv : phoneValid phone
        · have hadd : SrcMain.add_phone r phone =
              ({ r with phones := r.phones ++ [phone] }, .ok ()) := by
            unfold SrcMain.add_phone
            rw [if_pos hv]
          rw [hadd] at h ⊢
          simp only [SrcMain.nameAddPhone] at h ⊢
          by_cases hd : (findRec b
              ({ r with phones := r.phones ++ [phone] } : Record).name).isSome
          · have hop : SrcMain.add_record b
                { r with phones := r.phones ++ [phone] } =
                (b, .error SrcMain.dupMsg) := by
              unfold SrcMain.add_record
              rw [if_pos hd]
            rw [hop]
          · have hop : SrcMain.add_record b
                { r with phones := r.phones ++ [phone] } =
                (b ++ [(({ r with phones := r.phones ++ [phone] } :
                    Record).name, { r with phones := r.phones ++ [phone] })],
                 .ok ()) := by
              unfold SrcMain.add_record
              rw [if_neg hd]
            rw [hop] at h
            simp at h
        · have hadd : SrcMain.add_phone r phone =
              (r, .error SrcMain.phoneMsg) := by
            unfold SrcMain.add_phone
            rw [if_neg hv]
          rw [hadd] at h ⊢
          simp only [SrcMain.nameAddPhone] at h ⊢

/-- Witness for C8 at concrete failing inputs of each operation. -/
theorem c8_error_state_unchanged_witness :
    (SrcMain.edit_phone ⟨"W", ["0123456789"], none⟩
      "0123456789" "bad").1 = ⟨"W", ["0123456789"], none⟩ ∧
    (SrcMain.add_phone ⟨"W", [], none⟩ "12").1 = ⟨"W", [], none⟩ ∧
    (SrcOne.add_phone ⟨"W", [], none⟩ "12").1 = ⟨"W", [], none⟩ ∧
    (SrcOne.add_birthday ⟨"W", [], none⟩ "31.02.2024").1 =
      ⟨"W", [], none⟩ ∧
    (SrcOne.add_contact ["N", "123"] [("W", ⟨"W", [], none⟩)]).1 =
      [("W", ⟨"W", [], none⟩)] ∧
    (SrcMain.nameCommand [("W", ⟨"W", [], none⟩)] "" "" "").1 =
      [("W", ⟨"W", [], none⟩)] :=
  ⟨c8_error_state_unchanged.1 _ "0123456789" "bad" SrcMain.phoneMsg rfl,
   c8_error_state_unchanged.2.1 _ "12" SrcMain.phoneMsg rfl,
   c8_error_state_unchanged.2.2.1 _ "12" SrcOne.phoneMsg rfl,
   c8_error_state_unchanged.2.2.2.1 _ "31.02.2024" SrcOne.birthdayMsg rfl,
   c8_error_state_unchanged.2.2.2.2.1 ["N", "123"] _ SrcOne.phoneMsg rfl,
   c8_error_state_unchanged.2.2.2.2.2 _ "" "" "" SrcMain.nameMsg rfl⟩

theorem setKey_of_not_found {b : Book} {n : String}
    (h : findRec b n = none) (v : Record) : setKey b n v = b ++ [(n, v)] := by
  induction b with
  | nil => rfl
  | cons e t ih =>
    obtain ⟨k, w⟩ := e
    by_cases hk : k = n
    · simp [findRec, hk] at h
    · simp only [findRec, if_neg hk] at h
      simp [setKey, hk, ih h]

/-- C9: for a well-formed two-argument `add_contact(name, phone)` call in
`src/1.py`: when a record keyed by `name` already exists, the phone is
appended to that existing record (the book keeps the same number of entries
and every other key unchanged — the duplicate name is neither rejected nor
overwritten) and "Phone added." is returned; only when `name` is absent is a
fresh record containing exactly that one phone appended, returning "Contact
added.". -/
theorem c9_add_contact (book : Book) (name phone : String)
    (hv : phoneValid phone = true) :
    (∀ r, findRec book name = some r →
       (SrcOne.add_contact [name, phone] book).2 = .ok "Phone added." ∧
       findRec (SrcOne.add_contact [name, phone] book).1 name =
         some { r with phones := r.phones ++ [phone] } ∧
       (∀ k, k ≠ name →
         findRec (SrcOne.add_contact [name, phone] book).1 k =
           findRec book k) ∧
       (SrcOne.add_contact [name, phone] book).1.length = book.length) ∧
    (findRec book name = none →
       SrcOne.add_contact [name, phone] book =
         (book ++ [(name, ⟨name, [phone], none⟩)], .ok "Contact added.")) := by
  have hred : SrcOne.add_contact [name, phone] book =
      SrcOne.addToExisting book name phone (findRec book name) := rfl
  constructor
  · intro r hf
    rw [hred, hf]
    have hop : SrcOne.addToExisting book name phone (some r) =
        (setKey book name { r with phones := r.phones ++ [phone] },
         .ok "Phone added.") := by
      simp only [SrcOne.addToExisting]
      rw [if_pos hv]
    rw [hop]
    exact ⟨rfl, findRec_setKey_self _ _ _,
      fun k hk => findRec_setKey_ne _ _ hk,
      length_setKey_of_found hf _⟩
  · intro hf
    rw [hred, hf]
    have hop : SrcOne.addToExisting book name phone none =
        (setKey book name ⟨name, [phone], none⟩, .ok "Contact added.") := by
      simp only [SrcOne.addToExisting]
      rw [if_pos hv]
    rw [hop, setKey_of_not_found hf]

/-- Witness for C9: one existing-name call and one fresh-name call. -/
theorem c9_add_contact_witness :
    findRec (SrcOne.add_contact ["N", "1112223330"]
      [("N", ⟨"N", ["1234567890"], none⟩)]).1 "N" =
      some ⟨"N", ["1234567890", "1112223330"], none⟩ ∧
    SrcOne.add_contact ["M", "1112223330"]
      [("N", ⟨"N", ["1234567890"], none⟩)] =
      ([("N", ⟨"N", ["1234567890"], none⟩),
        ("M", ⟨"M", ["1112223330"], none⟩)], .ok "Contact added.") :=
  ⟨((c9_add_contact [("N", ⟨"N", ["1234567890"], none⟩)] "N" "1112223330"
      (by decide)).1 ⟨"N", ["1234567890"], none⟩ rfl).2.1,
   (c9_add_contact [("N", ⟨"N", ["1234567890"], none⟩)] "M" "1112223330"
      (by decide)).2 rfl⟩

theorem splitDots_ne_nil : ∀ l : List Char, splitDots l ≠ []
  | [] => by simp [splitDots]
  | c :: t => by
    simp only [splitDots]
    by_cases h : c = '.'
    · rw [if_pos h]
      simp
    · rw [if_neg h]
      cases hs : splitDots t with
      | nil => simp [consHead]
      | cons hh r => simp [consHead]

theorem joinDots_splitDots : ∀ l : List Char, joinDots (splitDots l) = l
  | [] => rfl
  | c :: t => by
    simp only [splitDots]
    by_cases h : c = '.'
    · rw [if_pos h, h]
      cases hs : splitDots t with
      | nil => exact absurd hs (splitDots_ne_nil t)
      | cons hh r =>
        have ht := joinDots_splitDots t
        rw [hs] at ht
        simp only [joinDots, List.nil_append]
        rw [ht]
    · rw [if_neg h]
      cases hs : splitDots t with
      | nil => exact absurd hs (splitDots_ne_nil t)
      | cons hh r =>
        have ht := joinDots_splitDots t
        rw [hs] at ht
        simp only [consHead]
        cases r with
        | nil =>
          simp only [joinDots] at ht ⊢
          rw [ht]
        | cons r1 rs =>
          simp only [joinDots] at ht ⊢
          rw [List.cons_append, ht]

theorem splitDots_no_dot :
    ∀ {a : List Char}, (∀ c ∈ a, c ≠ '.') → splitDots a = [a]
  | [], _ => rfl
  | c :: t, h => by
    have hc : c ≠ '.' := h c (by simp)
    simp only [splitDots]
    rw [if_neg hc, splitDots_no_dot (fun q hq => h q (by simp [hq]))]
    rfl

theorem splitDots_append_dot :
    ∀ {a : List Char} (r : List Char), (∀ c ∈ a, c ≠ '.') →
      splitDots (a ++ '.' :: r) = a :: splitDots r
  | [], r, _ => by simp [splitDots]
  | c :: t, r, h => by
    have hc : c ≠ '.' := h c (by simp)
    have hstep : (c :: t) ++ '.' :: r = c :: (t ++ '.' :: r) := rfl
    rw [hstep]
    simp only [splitDots]
    rw [if_neg hc, splitDots_append_dot r (fun q hq => h q (by simp [hq]))]
    rfl

theorem ne_dot_of_isDigit {c : Char} (h : c.isDigit = true) : c ≠ '.' := by
  intro he
  subst he
  simp at h

theorem parseDMY_some_iff (l : List Char) :
    (∃ d, parseDMY l = some d) ↔ lenientDMY l := by
  constructor
  · rintro ⟨d, hd⟩
    unfold parseDMY at hd
    cases hs : splitDots l with
    | nil => rw [hs] at hd; simp [parseSegs] at hd
    | cons a t =>
      cases t with
      | nil => rw [hs] at hd; simp [parseSegs] at hd
      | cons b t2 =>
        cases t2 with
        | nil => rw [hs] at hd; simp [parseSegs] at hd
        | cons c t3 =>
          cases t3 with
          | cons e t4 => rw [hs] at hd; simp [parseSegs] at hd
          | nil =>
            rw [hs] at hd
            simp only [parseSegs] at hd
            unfold parseFields at hd
            by_cases h1 : tok12 a && tok12 b && tokY c
            · rw [if_pos h1] at hd
              by_cases h2 : validDate (decodeDigits c) (decodeDigits b)
                  (decodeDigits a)
              · have hjoin : l = a ++ '.' :: (b ++ '.' :: c) := by
                  have hj := joinDots_splitDots l
                  rw [hs] at hj
                  simp only [joinDots] at hj
                  exact hj.symm
                have hb1 := h1
                rw [Bool.and_eq_true, Bool.and_eq_true] at hb1
                obtain ⟨⟨ha, hb⟩, hc⟩ := hb1
                unfold tok12 at ha hb
                unfold tokY at hc
                rw [Bool.and_eq_true, Bool.and_eq_true] at ha hb
                rw [Bool.and_eq_true] at hc
                refine ⟨a, b, c, hjoin, ha.1.1, ?_, ?_, hb.1.1, ?_, ?_,
                  hc.1, ?_, h2⟩
                · exact of_decide_eq_true ha.1.2
                · exact of_decide_eq_true ha.2
                · exact of_decide_eq_true hb.1.2
                · exact of_decide_eq_true hb.2
                · exact of_decide_eq_true hc.2
              · rw [if_neg h2] at hd
                simp at hd
            · rw [if_neg h1] at hd
              simp at hd
  · rintro ⟨ds, ms, ys, hl, hd1, hd2, hd3, hm1, hm2, hm3, hy1, hy2, hval⟩
    have hnd : ∀ c ∈ ds, c ≠ '.' := by
      intro c hc
      exact ne_dot_of_isDigit (List.all_eq_true.mp hd1 c hc)
    have hnm : ∀ c ∈ ms, c ≠ '.' := by
      intro c hc
      exact ne_dot_of_isDigit (List.all_eq_true.mp hm1 c hc)
    have hny : ∀ c ∈ ys, c ≠ '.' := by
      intro c hc
      exact ne_dot_of_isDigit (List.all_eq_true.mp hy1 c hc)
    have hs : splitDots l = [ds, ms, ys] := by
      rw [hl, splitDots_append_dot _ hnd, splitDots_append_dot _ hnm,
        splitDots_no_dot hny]
    refine ⟨⟨decodeDigits ds, decodeDigits ms, decodeDigits ys⟩, ?_⟩
    unfold parseDMY
    rw [hs]
    simp only [parseSegs]
    unfold parseFields
    have hcond : (tok12 ds && tok12 ms && tokY ys) = true := by
      unfold tok12 tokY
      rw [hd1, hm1, hy1]
      simp [hd2, hd3, hm2, hm3, hy2]
    rw [if_pos hcond, if_pos hval]

/-- C4 counterexample: `strptime("%d.%m.%Y")` also accepts one-digit day and
month fields, so the string "1.1.2024" — which does not match the exact
day(2 digits).month(2 digits).year(4 digits) pattern — nevertheless
constructs a Birthday successfully, refuting the claimed "only if". -/
theorem c4_counterexample :
    birthdayParse "1.1.2024" = some ⟨1, 1, 2024⟩ ∧
    SrcOne.birthdayNew "1.1.2024" = .ok ⟨1, 1, 2024⟩ ∧
    SrcMain.birthdayNew "1.1.2024" = .ok ⟨1, 1, 2024⟩ ∧
    specStrictDDMMYYYY "1.1.2024".data = false := by
  exact ⟨rfl, rfl, rfl, by decide⟩

/-- C4 (amended): constructing a Birthday from `s` succeeds if and only if
`s` consists of a one-or-two-digit day, a dot, a one-or-two-digit month, a
dot, and an exactly-four-digit year, together denoting a real calendar date
(year at least 1); in particular every proper `DD.MM.YYYY` calendar date is
accepted, invalid calendar dates such as `31.02.2024` and malformed strings
are rejected, but single-digit day or month fields are accepted as well, so
the claimed exact two-digit pattern is not necessary for success. -/
theorem c4_birthday_format_amended (s : String) :
    (∃ d, birthdayParse s = some d) ↔ lenientDMY s.data :=
  parseDMY_some_iff s.data

/-- Witness for the amended C4 at a lenient (single-digit) input. -/
theorem c4_birthday_format_amended_witness :
    lenientDMY "5.6.2024".data :=
  (c4_birthday_format_amended "5.6.2024").mp ⟨⟨5, 6, 2024⟩, by rfl⟩

end Hw
